import Mathlib

/-!
Shallow embedding of `scripts/grab_webtoon.py`: the chapter-acquisition
pipeline of the manga-image-translator wrapper (URL normalisation, image-URL
extraction, payload validation, chapter labelling, the retrying fetcher and
the download orchestrator), together with theorems settling the frozen
claims about it.

Python strings are modelled as `String` / `List Char`, byte payloads as
`List Nat` (one entry per byte), and network and filesystem effects as
explicit oracles plus event traces.  Where the script leans on the Python
standard library (`urllib.parse`, `re`, `html.unescape`) the relevant
fragment of the library's documented algorithm is embedded alongside;
each regular expression of the script is embedded as a dedicated matching
function implementing the leftmost/greedy backtracking semantics of that
concrete pattern.  Scanning loops carry an explicit fuel argument for
termination; every wrapper passes `length + 1` fuel, which is enough since
every step consumes at least one character.
-/

namespace Grab

set_option maxRecDepth 16384

/-! ### Characters and Python-style helpers -/

/-- The double-quote character. -/
def dquote : Char := Char.ofNat 34

/-- The single-quote character. -/
def squote : Char := Char.ofNat 39

/-- A quote as matched by the regex character class holding both quote kinds. -/
def isQuote (c : Char) : Bool := c == dquote || c == squote

/-- ASCII lower-casing, modelling `str.lower` on the ASCII data involved. -/
def pyLower (c : Char) : Char :=
  if 'A' ≤ c && c ≤ 'Z' then Char.ofNat (c.toNat + 32) else c

/-- Whitespace stripped by Python `str.strip()` and matched by the regex
class `\s` (ASCII fragment: space, tab, newline, return, vertical tab,
form feed). -/
def isPySpace (c : Char) : Bool :=
  c == ' ' || c == '\t' || c == '\n' || c == '\r' ||
  c == Char.ofNat 11 || c == Char.ofNat 12

/-- Case-insensitive literal prefix test (for patterns compiled with `re.I`). -/
def ciStarts : List Char → List Char → Bool
  | [], _ => true
  | _ :: _, [] => false
  | p :: ps, c :: cs => (pyLower p == pyLower c) && ciStarts ps cs

/-- Contiguous-sublist search: Python's `in` operator on `str` / `bytes`. -/
def subSearch [BEq α] (needle : List α) : List α → Bool
  | [] => needle.isEmpty
  | a :: t => needle.isPrefixOf (a :: t) || subSearch needle t

/-- `needle in hay` for strings. -/
def subStr (needle hay : String) : Bool := subSearch needle.data hay.data

/-- `str.strip()`: drop ASCII whitespace from both ends. -/
def pyStrip (l : List Char) : List Char :=
  ((l.dropWhile isPySpace).reverse.dropWhile isPySpace).reverse

/-- `str.strip("-")`: drop dashes from both ends. -/
def dashStrip (l : List Char) : List Char :=
  ((l.dropWhile (· == '-')).reverse.dropWhile (· == '-')).reverse

/-- The numeric value of a string of decimal digits (`int(g)` on a regex
group known to hold only digits). -/
def natOfDigits (l : List Char) : Nat :=
  l.foldl (fun a c => a * 10 + (c.toNat - 48)) 0

/-- Generic leftmost regex search: try the position matcher `f` at every
suffix, left to right, returning the first hit.  Fuel `length + 1` makes the
scan total. -/
def searchAux (f : List Char → Option α) : Nat → List Char → Option α
  | 0, _ => none
  | _ + 1, [] => f []
  | fuel + 1, c :: t =>
    match f (c :: t) with
    | some r => some r
    | none => searchAux f fuel t

/-- Descending backtracking helper: try `step k` for `k = n, n-1, …, 1`
(the shrinking of a greedy `[^…]+`), first success wins. -/
def tryFrom (step : Nat → Option α) : Nat → Option α
  | 0 => none
  | k + 1 =>
    match step (k + 1) with
    | some r => some r
    | none => tryFrom step k

/-- Like `tryFrom` but also tries `k = 0` (for a greedy `[^…]*`). -/
def tryFromZ (step : Nat → Option α) : Nat → Option α
  | 0 => step 0
  | k + 1 =>
    match step (k + 1) with
    | some r => some r
    | none => tryFromZ step k

/-! ### Byte payloads and `is_image_bytes` -/

/-- The bytes of an ASCII string. -/
def asciiBytes (s : String) : List Nat := s.data.map Char.toNat

/-- ASCII whitespace bytes removed by `bytes.lstrip()`. -/
def isSpaceByte (b : Nat) : Bool :=
  b == 32 || b == 9 || b == 10 || b == 13 || b == 11 || b == 12

/-- `bytes.lstrip()` with no argument: strip leading ASCII whitespace. -/
def lstripBytes : List Nat → List Nat
  | [] => []
  | b :: t => if isSpaceByte b then lstripBytes t else b :: t

/-- `ctype and ctype.lower().startswith("image/")`: the transport-header
acceptance test (an absent or empty content type is falsy). -/
def ctypeIsImage : Option String → Bool
  | none => false
  | some c => c != "" && (("image/").data).isPrefixOf (c.data.map pyLower)

/-- `is_image_bytes(data, ctype)`: a content type beginning with an image
media type is accepted outright; otherwise the first 16 bytes must carry a
JPEG or PNG signature, or a RIFF header with a WEBP tag somewhere in the
first 64 bytes, and in addition the whitespace-stripped signature must not
open with `<`, a left brace (byte 123) or `<!`. -/
def is_image_bytes (data : List Nat) (ctype : Option String) : Bool :=
  if ctypeIsImage ctype then true
  else
    let sig := data.take 16
    (([0xff, 0xd8, 0xff].isPrefixOf sig)
      || ([0x89, 0x50, 0x4e, 0x47, 0x0d, 0x0a, 0x1a, 0x0a].isPrefixOf sig)
      || (((asciiBytes ("RIFF")).isPrefixOf sig)
            && subSearch (asciiBytes ("WEBP")) (data.take 64)))
    && !(([60].isPrefixOf (lstripBytes sig))
          || ([123].isPrefixOf (lstripBytes sig))
          || ([60, 33].isPrefixOf (lstripBytes sig)))

/-! ### `urllib.parse`: the fragment the script uses -/

/-- The six components of `urllib.parse.urlparse`. -/
structure UrlParts where
  scheme : String
  netloc : String
  path : String
  params : String
  query : String
  fragment : String
deriving DecidableEq, Repr

/-- Characters allowed in a URL scheme (letters, digits, `+`, `-`, `.`). -/
def isSchemeChar (c : Char) : Bool :=
  c.isAlpha || c.isDigit || c == '+' || c == '-' || c == '.'

/-- Split a list at the first occurrence of `c` (the separator removed),
`none` when `c` does not occur. -/
def splitFirst (c : Char) : List Char → Option (List Char × List Char)
  | [] => none
  | a :: t =>
    if a == c then some ([], t)
    else
      match splitFirst c t with
      | some (x, y) => some (a :: x, y)
      | none => none

/-- `urllib.parse.urlsplit` on the behaviour the script exercises: strip
leading C0-control-or-space characters, remove tab/CR/NL, split off
`scheme:` when the text before the first colon is a valid scheme, read
`//netloc` up to the first of `/?#`, then split the fragment at the first
`#` and the query at the first `?`.  (CPython's IPv6-bracket `ValueError`
checks are not modelled; the script's only reachable raise site sits inside
a `try/except`.) -/
def urlsplitCore (defScheme : String) (url : String) : UrlParts :=
  let u0 := (url.data.dropWhile (fun c => c.toNat ≤ 32)).filter
              (fun c => !(c == '\t' || c == '\r' || c == '\n'))
  let sch0 := defScheme.data.filter (fun c => !(c == '\t' || c == '\r' || c == '\n'))
  let sr :=
    match splitFirst ':' u0 with
    | some (before, after) =>
      if before.length > 0
          && (match before with | c :: _ => c.isAlpha | [] => false)
          && before.all isSchemeChar then
        (before.map pyLower, after)
      else (sch0, u0)
    | none => (sch0, u0)
  let nr :=
    match sr.2 with
    | '/' :: '/' :: r =>
      let nl := r.takeWhile (fun c => !(c == '/' || c == '?' || c == '#'))
      (nl, r.drop nl.length)
    | rest => (([] : List Char), rest)
  let fr :=
    match splitFirst '#' nr.2 with
    | some (a, b) => (a, b)
    | none => (nr.2, [])
  let qr :=
    match splitFirst '?' fr.1 with
    | some (a, b) => (a, b)
    | none => (fr.1, [])
  ⟨String.mk sr.1, String.mk nr.1, String.mk qr.1, "", String.mk qr.2, String.mk fr.2⟩

/-- Python's `uses_params` list: schemes for which `urlparse` splits
`;params` off the last path segment. -/
def usesParams : List String :=
  ["", "ftp", "hdl", "prospero", "http", "imap", "https", "shttp", "rtsp",
   "rtspu", "sip", "sips", "mms", "sftp", "tel"]

/-- `urllib.parse._splitparams`: split `;params` from the last path
segment (or from the whole path when it has no `/`). -/
def splitParamsPy (l : List Char) : List Char × List Char :=
  if l.contains '/' then
    let lastSlash := l.length - 1 - (l.reverse.takeWhile (fun c => !(c == '/'))).length
    match splitFirst ';' (l.drop lastSlash) with
    | some (a, b) => (l.take lastSlash ++ a, b)
    | none => (l, [])
  else
    match splitFirst ';' l with
    | some (a, b) => (a, b)
    | none => (l, [])

/-- `urllib.parse.urlparse`: `urlsplit` plus the `;params` split when the
scheme uses parameters and the path holds a `;`. -/
def urlparsePy (defScheme : String) (url : String) : UrlParts :=
  let p := urlsplitCore defScheme url
  if usesParams.contains p.scheme && p.path.data.contains ';' then
    let ab := splitParamsPy p.path.data
    { p with path := String.mk ab.1, params := String.mk ab.2 }
  else p

/-- Ordinary (case-sensitive) string prefix test. -/
def strStarts (pre s : String) : Bool := pre.data.isPrefixOf s.data

/-- Ordinary string suffix test. -/
def strEnds (suf s : String) : Bool := suf.data.reverse.isPrefixOf s.data.reverse

/-- `urllib.parse.urlunsplit`. -/
def urlunsplitPy (scheme netloc path query frag : String) : String :=
  let url0 :=
    if netloc != "" || (path != "" && strStarts ("//") path) then
      let u1 := if path != "" && !(strStarts ("/") path) then "/" ++ path else path
      "//" ++ netloc ++ u1
    else path
  let url1 := if scheme != "" then scheme ++ ":" ++ url0 else url0
  let url2 := if query != "" then url1 ++ "?" ++ query else url1
  if frag != "" then url2 ++ "#" ++ frag else url2

/-- `urllib.parse.urlunparse`. -/
def urlunparsePy (p : UrlParts) : String :=
  let pathWithParams := if p.params != "" then p.path ++ ";" ++ p.params else p.path
  urlunsplitPy p.scheme p.netloc pathWithParams p.query p.fragment

/-- Python's `uses_relative` scheme list. -/
def usesRelative : List String :=
  ["", "ftp", "http", "gopher", "nntp", "imap", "wais", "file", "https",
   "shttp", "mms", "prospero", "rtsp", "rtspu", "sftp", "svn", "svn+ssh",
   "ws", "wss"]

/-- Python's `uses_netloc` scheme list. -/
def usesNetloc : List String :=
  ["", "ftp", "http", "gopher", "nntp", "telnet", "imap", "wais", "file",
   "mms", "https", "shttp", "snews", "prospero", "rtsp", "rtspu", "rsync",
   "svn", "svn+ssh", "sftp", "nfs", "git", "git+ssh", "ws", "wss"]

/-- Python `str.split(sep)` for a one-character separator: always returns at
least one (possibly empty) piece. -/
def splitOn (sep : Char) : List Char → List (List Char)
  | [] => [[]]
  | c :: t =>
    let r := splitOn sep t
    if c == sep then [] :: r
    else
      match r with
      | h :: t2 => (c :: h) :: t2
      | [] => [[c]]

/-- `urllib.parse.urljoin`. -/
def urljoinPy (base url : String) : String :=
  if base == "" then url
  else if url == "" then base
  else
    let b := urlparsePy ("") base
    let u := urlparsePy b.scheme url
    if u.scheme != b.scheme || !(usesRelative.contains u.scheme) then url
    else
      let nd :=
        if usesNetloc.contains u.scheme then
          if u.netloc != "" then (u.netloc, true) else (b.netloc, false)
        else (u.netloc, false)
      if nd.2 then urlunparsePy { u with netloc := nd.1 }
      else if u.path == "" && u.params == "" then
        let query := if u.query == "" then b.query else u.query
        urlunparsePy ⟨u.scheme, nd.1, b.path, b.params, query, u.fragment⟩
      else
        let baseParts0 := splitOn '/' b.path.data
        let baseParts :=
          match baseParts0.getLast? with
          | some [] => baseParts0
          | _ => baseParts0.dropLast
        let segments :=
          if strStarts ("/") u.path then splitOn '/' u.path.data
          else
            match baseParts ++ splitOn '/' u.path.data with
            | [] => []
            | [x] => [x]
            | x :: rest =>
              x :: (rest.dropLast.filter (fun s => !s.isEmpty)) ++ [rest.getLastD []]
        let resolved := segments.foldl (fun acc seg =>
          if seg == (("..").data) then acc.dropLast
          else if seg == ((".").data) then acc
          else acc ++ [seg]) []
        let resolved2 :=
          match segments.getLast? with
          | some s =>
            if s == ((".").data) || s == (("..").data) then resolved ++ [[]] else resolved
          | none => resolved
        let joined := List.intercalate (("/").data) resolved2
        let path2 := if joined.isEmpty then ("/").data else joined
        urlunparsePy ⟨u.scheme, nd.1, String.mk path2, u.params, u.query, u.fragment⟩

/-- One hex digit's value. -/
def hexVal (c : Char) : Option Nat :=
  if c.isDigit then some (c.toNat - 48)
  else if 'a' ≤ c && c ≤ 'f' then some (c.toNat - 87)
  else if 'A' ≤ c && c ≤ 'F' then some (c.toNat - 55)
  else none

/-- `urllib.parse.unquote`, modelled byte-wise: an escaped byte below 128
decodes to its ASCII character, any other byte to U+FFFD (CPython decodes
UTF-8 byte runs with errors="replace"; no claim touches non-ASCII escapes).
A `%` not followed by two hex digits stays as it is. -/
def unquoteAux : Nat → List Char → List Char
  | 0, _ => []
  | _, [] => []
  | fuel + 1, c :: t =>
    if c == '%' then
      match t with
      | h1 :: h2 :: t2 =>
        match hexVal h1, hexVal h2 with
        | some a, some b =>
          (if a * 16 + b < 128 then Char.ofNat (a * 16 + b) else Char.ofNat 0xfffd)
            :: unquoteAux fuel t2
        | _, _ => c :: unquoteAux fuel t
      | _ => c :: unquoteAux fuel t
    else c :: unquoteAux fuel t

/-- `unquote` wrapper with enough fuel. -/
def pyUnquote (s : List Char) : List Char := unquoteAux (s.length + 1) s

/-- `urllib.parse.parse_qsl` with default arguments: split the query on `&`,
drop empty chunks, chunks without `=` and chunks with an empty value,
replace `+` by space and percent-decode names and values. -/
def parseQsl (query : String) : List (String × String) :=
  (splitOn '&' query.data).foldr (fun chunk acc =>
    if chunk.isEmpty then acc
    else
      match splitFirst '=' chunk with
      | some (n, v) =>
        if v.isEmpty then acc
        else
          (String.mk (pyUnquote (n.map (fun c => if c == '+' then ' ' else c))),
           String.mk (pyUnquote (v.map (fun c => if c == '+' then ' ' else c)))) :: acc
      | none => acc) []

/-- `parse_qs(urlparse(url).query).get(name)` followed by
`v[0] if v else ''` (the script's `qget`): the first value bound to `name`,
or the empty string. -/
def queryParam (url name : String) : String :=
  match (parseQsl (urlparsePy ("") url).query).find? (fun p => p.1 == name) with
  | some p => p.2
  | none => ""

/-! ### `normalize_naver_url` -/

/-- The rewrite guard of `normalize_naver_url`: lower-cased host ends in
`comic.naver.com`, does not start with `m.`, and the path holds
`/webtoon/detail`. -/
def naverMatches (u : String) : Bool :=
  let p := urlparsePy ("") u
  let host := String.mk (p.netloc.data.map pyLower)
  strEnds ("comic.naver.com") host && !(strStarts ("m.") host)
    && subStr ("/webtoon/detail") p.path

/-- `normalize_naver_url(u)`: rewrite a Naver desktop chapter-detail URL to
the mobile host and report `True`, else return the input unchanged with
`False`.  The Python body wraps everything in `try/except` that returns
`(u, False)`; the model is total, so no except branch is needed. -/
def normalize_naver_url (u : String) : String × Bool :=
  let p := urlparsePy ("") u
  let host := String.mk (p.netloc.data.map pyLower)
  if strEnds ("comic.naver.com") host && !(strStarts ("m.") host) then
    if subStr ("/webtoon/detail") p.path then
      let scheme := if p.scheme != "" then p.scheme else "https"
      (urlunparsePy ⟨scheme, "m.comic.naver.com", p.path, p.params, p.query, p.fragment⟩,
       true)
    else (u, false)
  else (u, false)

/-! ### The img-tag attribute scan

Pattern: `<img[^>]+(?:data-src|data-original|data-image|src)\s*=\s*['"]([^'"]+)['"][^>]*>`
with `re.IGNORECASE`, driven by `finditer` (leftmost, non-overlapping).
The greedy `[^>]+` backtracks from its longest span, so of all the src-like
attributes inside one tag the rightmost one that completes the tail wins.
The four attribute literals pairwise disagree on a first character wherever
more than one could start (`data-*` vs `src`, and `data-s`/`data-o`/`data-i`
after the shared prefix), so trying them in order with commitment is exactly
the alternation's backtracking behaviour. -/

/-- Tail of the img pattern after the attribute name:
`\s*=\s*['"]([^'"]+)['"][^>]*>`.  Returns the captured value and the suffix
after the closing `>`. -/
def attrTail (rest : List Char) : Option (List Char × List Char) :=
  match rest.dropWhile isPySpace with
  | '=' :: r2 =>
    let r3 := r2.dropWhile isPySpace
    match r3 with
    | q :: r4 =>
      if isQuote q then
        let cap := r4.takeWhile (fun c => !(isQuote c))
        if cap.isEmpty then none
        else
          match r4.drop cap.length with
          | q2 :: r5 =>
            if isQuote q2 then
              let skip := r5.takeWhile (fun c => !(c == '>'))
              match r5.drop skip.length with
              | '>' :: r6 => some (cap, r6)
              | _ => none
            else none
          | [] => none
      else none
    | [] => none
  | _ => none

/-- `(?:data-src|data-original|data-image|src)` followed by `attrTail`,
anchored at the start of `l`. -/
def attrAlt (l : List Char) : Option (List Char × List Char) :=
  if ciStarts (("data-src").data) l then attrTail (l.drop 8)
  else if ciStarts (("data-original").data) l then attrTail (l.drop 13)
  else if ciStarts (("data-image").data) l then attrTail (l.drop 10)
  else if ciStarts (("src").data) l then attrTail (l.drop 3)
  else none

/-- The whole img pattern anchored at the start of `l`: `<img`, a greedy
`[^>]+` backtracking from its longest span, then `attrAlt`. -/
def imgMatchAt (l : List Char) : Option (List Char × List Char) :=
  if ciStarts (("<img").data) l then
    let rest1 := l.drop 4
    let n := (rest1.takeWhile (fun c => !(c == '>'))).length
    tryFrom (fun j => attrAlt (rest1.drop j)) n
  else none

/-- `finditer` driver for the img pattern: captured attribute values in
document order, non-overlapping. -/
def imgScanAux : Nat → List Char → List String
  | 0, _ => []
  | _, [] => []
  | fuel + 1, c :: t =>
    match imgMatchAt (c :: t) with
    | some (cap, rest) => String.mk cap :: imgScanAux fuel rest
    | none => imgScanAux fuel t

/-- All img-tag attribute captures of the document, in order. -/
def imgScan (html : String) : List String :=
  imgScanAux (html.data.length + 1) html.data

/-- A character that can appear in a quoted attribute value without
affecting the pattern's backtracking: not a quote, not whitespace, not
`>` and not `=`. -/
def plainValChar (c : Char) : Bool :=
  !(isQuote c) && !(isPySpace c) && !(c == '>') && !(c == '=')

/-! ### The bare-URL fallback scan

Pattern: `https?://[^'"\s>]+\.(?:jpg|jpeg|png|webp)(?:\?[^'"\s>]*)?` with
`re.I`, driven by `finditer`; the match text itself (`group(0)`) is taken. -/

/-- A character that ends the `[^'"\s>]` run. -/
def isBareStop (c : Char) : Bool := isQuote c || isPySpace c || c == '>'

/-- The extension alternation `(?:jpg|jpeg|png|webp)` (case-insensitive),
returning how many characters it consumed. -/
def extAfterDot (l : List Char) : Option Nat :=
  if ciStarts (("jpg").data) l then some 3
  else if ciStarts (("jpeg").data) l then some 4
  else if ciStarts (("png").data) l then some 3
  else if ciStarts (("webp").data) l then some 4
  else none

/-- The bare-URL pattern anchored at the start of `l`: scheme, a greedy run,
backtracking to the rightmost `.ext`, then an optional greedy `?query`.
Returns the matched text and the suffix after it. -/
def bareMatchAt (l : List Char) : Option (List Char × List Char) :=
  let sl :=
    if ciStarts (("https://").data) l then some 8
    else if ciStarts (("http://").data) l then some 7
    else none
  match sl with
  | none => none
  | some sl =>
    let rest := l.drop sl
    let n := (rest.takeWhile (fun c => !(isBareStop c))).length
    let hit := tryFrom (fun j =>
      match rest.drop j with
      | '.' :: r2 =>
        match extAfterDot r2 with
        | some el =>
          let afterExt := r2.drop el
          let qlen :=
            match afterExt with
            | '?' :: r3 => 1 + (r3.takeWhile (fun c => !(isBareStop c))).length
            | _ => 0
          some (j + 1 + el + qlen)
        | none => none
      | _ => none) n
    match hit with
    | some len => some (l.take (sl + len), l.drop (sl + len))
    | none => none

/-- `finditer` driver for the bare-URL pattern. -/
def bareScanAux : Nat → List Char → List String
  | 0, _ => []
  | _, [] => []
  | fuel + 1, c :: t =>
    match bareMatchAt (c :: t) with
    | some (m, rest) => String.mk m :: bareScanAux fuel rest
    | none => bareScanAux fuel t

/-- All bare absolute image URLs of the document, in order. -/
def bareScan (html : String) : List String :=
  bareScanAux (html.data.length + 1) html.data

/-! ### `sort_key` -/

/-- One position of `re.search(r"/(\d{2,})/|_p(\d+)|page=(\d+)", u)` (the
pattern is compiled without flags, hence case-sensitive; the three branches
start with distinct characters, so alternation order never matters at one
position). -/
def sortKeyAt (l : List Char) : Option Nat :=
  match l with
  | '/' :: r =>
    let ds := r.takeWhile Char.isDigit
    if ds.length ≥ 2 then
      match r.drop ds.length with
      | '/' :: _ => some (natOfDigits ds)
      | _ => none
    else none
  | '_' :: 'p' :: r =>
    let ds := r.takeWhile Char.isDigit
    if ds.length ≥ 1 then some (natOfDigits ds) else none
  | 'p' :: 'a' :: 'g' :: 'e' :: '=' :: r =>
    let ds := r.takeWhile Char.isDigit
    if ds.length ≥ 1 then some (natOfDigits ds) else none
  | _ => none

/-- The embedded page number of a URL, when the pattern matches. -/
def sortKeyFind (u : String) : Option Nat :=
  searchAux sortKeyAt (u.data.length + 1) u.data

/-- `sort_key(u)` from `extract_image_urls`: the embedded page number, or
the sentinel `1_000_000` when none is recognisable. -/
def sort_key (u : String) : Nat := (sortKeyFind u).getD 1000000

/-! ### `extract_image_urls` -/

/-- Host filter of the first loop: the trusted hosts, by substring. -/
def trustedHost (host : String) : Bool :=
  subStr ("pstatic.net") host || subStr ("comic.naver.net") host
    || subStr ("naver.net") host

/-- Content-marker fallback of the first loop:
`re.search(r"/webtoon/|/episode/|/content/|/image/", u)`. -/
def contentMarker (u : String) : Bool :=
  subStr ("/webtoon/") u || subStr ("/episode/") u || subStr ("/content/") u
    || subStr ("/image/") u

/-- The attribute-scan loop of `extract_image_urls`: drop `data:` URIs,
resolve against the base, drop empty hosts, apply the host filter with the
content-marker fallback, and append unseen URLs in order. -/
def collectAttrUrls (html base : String) : List String :=
  (imgScan html).foldl (fun acc u =>
    if strStarts ("data:") u then acc
    else
      let u2 := urljoinPy base u
      let host := (urlparsePy ("") u2).netloc
      if host == "" then acc
      else if !(trustedHost host) && !(contentMarker u2) then acc
      else if acc.contains u2 then acc
      else acc ++ [u2]) []

/-- The bare-URL fallback loop: keep matches on trusted hosts, appending
unseen URLs after the attribute-scan ones. -/
def collectAllUrls (html base : String) : List String :=
  (bareScan html).foldl (fun acc u =>
    let host := (urlparsePy ("") u).netloc
    if trustedHost host then
      if acc.contains u then acc else acc ++ [u]
    else acc) (collectAttrUrls html base)

/-- `dict.fromkeys`: order-preserving first-occurrence deduplication. -/
def dedupFirst (l : List String) : List String :=
  l.foldl (fun acc u => if acc.contains u then acc else acc ++ [u]) []

/-- The comparison of the final `sorted(..., key=lambda x: (sort_key x,
urls.index x))`: lexicographic on the key pair.  Ascending and, on equal
keys, by first-seen index — Python's stable sort with this key computes
exactly the `mergeSort` of this total preorder. -/
def pageLe (urls : List String) (a b : String) : Bool :=
  Nat.blt (sort_key a) (sort_key b)
    || (Nat.beq (sort_key a) (sort_key b)
          && Nat.ble (urls.indexOf a) (urls.indexOf b))

/-- `extract_image_urls(html, base)`: both scans, first-seen dedup, then the
stable sort by `(sort_key, first-seen index)`. -/
def extract_image_urls (html base : String) : List String :=
  let urls := collectAllUrls html base
  (dedupFirst urls).mergeSort (pageLe urls)

/-! ### `infer_ext` -/

/-- `infer_ext(url)`: the image extension of the lower-cased URL path, or
`.jpg` as the fallback. -/
def infer_ext (url : String) : String :=
  let path := String.mk ((urlparsePy ("") url).path.data.map pyLower)
  if strEnds (".jpg") path then ".jpg"
  else if strEnds (".jpeg") path then ".jpeg"
  else if strEnds (".png") path then ".png"
  else if strEnds (".webp") path then ".webp"
  else ".jpg"

/-! ### `slugify` and the chapter-label helpers -/

/-- `re.sub(r"[…]+", r, s)` for a character-class pattern: replace every
maximal run of class characters by the replacement. -/
def runsReplaceAux (p : Char → Bool) (r : List Char) : Nat → List Char → List Char
  | 0, _ => []
  | _, [] => []
  | fuel + 1, c :: t =>
    if p c then r ++ runsReplaceAux p r fuel (t.dropWhile p)
    else c :: runsReplaceAux p r fuel t

/-- `runsReplaceAux` with enough fuel. -/
def runsReplace (p : Char → Bool) (r : List Char) (l : List Char) : List Char :=
  runsReplaceAux p r (l.length + 1) l

/-- The class `[A-Za-z0-9-]` kept by `slugify`'s filter. -/
def isSlugChar (c : Char) : Bool := c.isAlpha || c.isDigit || c == '-'

/-- `slugify(s)`: strip, hyphenate whitespace/underscore runs, drop all
other non-alphanumeric-hyphen characters, collapse hyphen runs, strip
hyphens, truncate to 80. -/
def slugify (s : String) : String :=
  let l0 := pyStrip s.data
  let l1 := runsReplace (fun c => isPySpace c || c == '_') ['-'] l0
  let l2 := runsReplace (fun c => !(isSlugChar c)) [] l1
  let l3 := runsReplace (fun c => c == '-') ['-'] l2
  String.mk ((dashStrip l3).take 80)

/-- `re.search(r"-\d+$", s)`: the string ends in a dash followed by one or
more digits. -/
def endsDashDigits (s : String) : Bool :=
  (s.data.reverse.takeWhile Char.isDigit).length ≥ 1 &&
    (match s.data.reverse.drop (s.data.reverse.takeWhile Char.isDigit).length with
     | '-' :: _ => true
     | _ => false)

/-- `re.sub(r"-\d+$", "", s)`: drop the trailing dash-and-digits suffix
when the pattern matches, else return the input. -/
def dropTrailingDashDigits (s : String) : String :=
  if (s.data.reverse.takeWhile Char.isDigit).length ≥ 1 then
    match s.data.reverse.drop (s.data.reverse.takeWhile Char.isDigit).length with
    | '-' :: r => String.mk r.reverse
    | _ => s
  else s

/-- One position of `re.search(r"(\d{1,5})", s)`: at a digit, capture up to
five digits greedily. -/
def digits15At : List Char → Option String
  | [] => none
  | c :: t =>
    if c.isDigit then some (String.mk (c :: (t.takeWhile Char.isDigit).take 4))
    else none

/-- `re.search(r"(\d{1,5})", s)`: the first run of digits, capped at five. -/
def searchDigits15 (s : String) : Option String :=
  searchAux digits15At (s.data.length + 1) s.data

/-! ### `extract_by_id` and the title fallbacks -/

/-- `re.sub(r"<[^>]+>", " ", l)`: markup tags become single spaces. -/
def stripTagsAux : Nat → List Char → List Char
  | 0, _ => []
  | _, [] => []
  | fuel + 1, c :: t =>
    if c == '<' then
      let run := t.takeWhile (fun c => !(c == '>'))
      if run.length ≥ 1 then
        match t.drop run.length with
        | '>' :: r => ' ' :: stripTagsAux fuel r
        | _ => c :: stripTagsAux fuel t
      else c :: stripTagsAux fuel t
    else c :: stripTagsAux fuel t

/-- Named entities of the `html.unescape` model (CPython's full HTML5 table,
including semicolon-less named forms, is not modelled; no claim depends on
entity decoding). -/
def namedEntity (l : List Char) : Option (Char × Nat) :=
  if (("amp;").data).isPrefixOf l then some ('&', 4)
  else if (("lt;").data).isPrefixOf l then some ('<', 3)
  else if (("gt;").data).isPrefixOf l then some ('>', 3)
  else if (("quot;").data).isPrefixOf l then some (dquote, 5)
  else if (("apos;").data).isPrefixOf l then some (squote, 5)
  else if (("nbsp;").data).isPrefixOf l then some (Char.ofNat 160, 5)
  else none

/-- A numeric character reference's character: the code point when it is a
valid scalar value, else U+FFFD. -/
def numChar (n : Nat) : Char :=
  if Nat.isValidChar n then Char.ofNat n else Char.ofNat 0xfffd

/-- The value of a hex-digit string. -/
def hexValue (ds : List Char) : Nat :=
  ds.foldl (fun a c => a * 16 + ((hexVal c).getD 0)) 0

/-- Model of `html.unescape`: decode the named entities above and numeric
`&#…;` / `&#x…;` references. -/
def unescapeAux : Nat → List Char → List Char
  | 0, _ => []
  | _, [] => []
  | fuel + 1, c :: t =>
    if c == '&' then
      match namedEntity t with
      | some (ch, k) => ch :: unescapeAux fuel (t.drop k)
      | none =>
        match t with
        | '#' :: 'x' :: t3 =>
          let ds := t3.takeWhile (fun c => (hexVal c).isSome)
          match t3.drop ds.length with
          | ';' :: t4 =>
            if ds.isEmpty then c :: unescapeAux fuel t
            else numChar (hexValue ds) :: unescapeAux fuel t4
          | _ => c :: unescapeAux fuel t
        | '#' :: 'X' :: t3 =>
          let ds := t3.takeWhile (fun c => (hexVal c).isSome)
          match t3.drop ds.length with
          | ';' :: t4 =>
            if ds.isEmpty then c :: unescapeAux fuel t
            else numChar (hexValue ds) :: unescapeAux fuel t4
          | _ => c :: unescapeAux fuel t
        | '#' :: t2 =>
          let ds := t2.takeWhile Char.isDigit
          match t2.drop ds.length with
          | ';' :: t4 =>
            if ds.isEmpty then c :: unescapeAux fuel t
            else numChar (natOfDigits ds) :: unescapeAux fuel t4
          | _ => c :: unescapeAux fuel t
        | _ => c :: unescapeAux fuel t
    else c :: unescapeAux fuel t

/-- `</[^>]+>` anchored at the start of `l`: the close-tag shape the lazy
group of `extract_by_id`'s pattern stops at. -/
def lazyCloseAt (l : List Char) : Bool :=
  match l with
  | '<' :: '/' :: r =>
    let nm := r.takeWhile (fun c => !(c == '>'))
    nm.length ≥ 1 &&
      (match r.drop nm.length with
       | '>' :: _ => true
       | _ => false)
  | _ => false

/-- The lazy `(.*?)` with `re.S`: the shortest span before a close tag. -/
def lazyInner : Nat → List Char → List Char → Option (List Char)
  | 0, _, _ => none
  | fuel + 1, l, acc =>
    if lazyCloseAt l then some acc.reverse
    else
      match l with
      | [] => none
      | c :: t => lazyInner fuel t (c :: acc)

/-- Tail of `extract_by_id`'s pattern after the greedy `[^>]*`:
`id=["']ID["'][^>]*>(.*?)</[^>]+>` (case-insensitive). -/
def idTail (idL : List Char) (m : List Char) : Option (List Char) :=
  if ciStarts (("id=").data) m then
    match m.drop 3 with
    | q :: r1 =>
      if isQuote q then
        if ciStarts idL r1 then
          match r1.drop idL.length with
          | q2 :: r2 =>
            if isQuote q2 then
              let skip := r2.takeWhile (fun c => !(c == '>'))
              match r2.drop skip.length with
              | '>' :: r3 => lazyInner (r3.length + 1) r3 []
              | _ => none
            else none
          | [] => none
        else none
      else none
    | [] => none
  else none

/-- `extract_by_id`'s pattern anchored at a `<`: greedy `[^>]*` backtracking
from its longest span, then `idTail`. -/
def idMatchAt (idL : List Char) (l : List Char) : Option (List Char) :=
  match l with
  | '<' :: r =>
    let n := (r.takeWhile (fun c => !(c == '>'))).length
    tryFromZ (fun j => idTail idL (r.drop j)) n
  | _ => none

/-- `extract_by_id(doc, el_id)`: find the element, drop inner tags,
unescape entities, collapse whitespace and strip. -/
def extract_by_id (doc elId : String) : Option String :=
  match searchAux (idMatchAt elId.data) (doc.data.length + 1) doc.data with
  | none => none
  | some inner =>
    let s1 := stripTagsAux (inner.length + 1) inner
    let s2 := unescapeAux (s1.length + 1) s1
    some (String.mk (pyStrip (runsReplace isPySpace [' '] s2)))

/-- Innermost piece of the og:title pattern: `content=["']([^"']+)["']`. -/
def ogContent (m : List Char) : Option (List Char) :=
  if ciStarts (("content=").data) m then
    match m.drop 8 with
    | q :: r1 =>
      if isQuote q then
        let cap := r1.takeWhile (fun c => !(isQuote c))
        if cap.length ≥ 1 then
          match r1.drop cap.length with
          | q2 :: _ => if isQuote q2 then some cap else none
          | [] => none
        else none
      else none
    | [] => none
  else none

/-- Middle piece: `property=["']og:title["'][^>]+content=…`. -/
def ogProp (m : List Char) : Option (List Char) :=
  if ciStarts (("property=").data) m then
    match m.drop 9 with
    | q :: r1 =>
      if isQuote q then
        if ciStarts (("og:title").data) r1 then
          match r1.drop 8 with
          | q2 :: r2 =>
            if isQuote q2 then
              let n2 := (r2.takeWhile (fun c => !(c == '>'))).length
              tryFrom (fun j => ogContent (r2.drop j)) n2
            else none
          | [] => none
        else none
      else none
    | [] => none
  else none

/-- `re.search(r"<meta[^>]+property=[\"']og:title[\"'][^>]+content=[\"']([^\"']+)[\"']", html, re.I)`
anchored at one position. -/
def ogMatchAt (l : List Char) : Option (List Char) :=
  if ciStarts (("<meta").data) l then
    let r := l.drop 5
    let n := (r.takeWhile (fun c => !(c == '>'))).length
    tryFrom (fun j => ogProp (r.drop j)) n
  else none

/-- The og:title capture of a document, when present. -/
def ogTitleSearch (d : String) : Option String :=
  (searchAux ogMatchAt (d.data.length + 1) d.data).map String.mk

/-- `re.search(r"<title>([^<]+)</title>", html, re.I)` at one position. -/
def titleMatchAt (l : List Char) : Option (List Char) :=
  if ciStarts (("<title>").data) l then
    let r := l.drop 7
    let cap := r.takeWhile (fun c => !(c == '<'))
    if cap.length ≥ 1 && ciStarts (("</title>").data) (r.drop cap.length) then some cap
    else none
  else none

/-- The document-title capture, when present. -/
def titleTagSearch (d : String) : Option String :=
  (searchAux titleMatchAt (d.data.length + 1) d.data).map String.mk

/-! ### `parse_chapter_label` -/

/-- The metadata dictionary built by `parse_chapter_label`. -/
structure ChapterMeta where
  site : String
  titleId : String
  no : String
  episode_title : Option String
  episode_title_main : Option String
  episode_subtitle : Option String
  episode_no_extracted : Option String
  url : String
deriving DecidableEq, Repr

/-- Python truthiness of the optional html argument (`if html:`). -/
def htmlTruthy : Option String → Option String
  | some h => if h == "" then none else some h
  | none => none

/-- `ep_main`: the toolbar main title. -/
def epMainOf (html : Option String) : Option String :=
  (htmlTruthy html).bind (fun d => extract_by_id d ("titleName_toolbar"))

/-- `ep_sub`: the toolbar subtitle. -/
def epSubOf (html : Option String) : Option String :=
  (htmlTruthy html).bind (fun d => extract_by_id d ("subTitle_toolbar"))

/-- `ep_no_text`: the first (up to five) digits of a truthy subtitle. -/
def epNoTextOf (html : Option String) : Option String :=
  match epSubOf html with
  | some s => if s != "" then searchDigits15 s else none
  | none => none

/-- `ep_title`: the og:title content, else the document title. -/
def epTitleOf (html : Option String) : Option String :=
  (htmlTruthy html).bind (fun d =>
    match ogTitleSearch d with
    | some t => some t
    | none => titleTagSearch d)

/-- Python `a or b` on optional strings (an empty string is falsy). -/
def pyOrOpt (a b : Option String) : Option String :=
  match a with
  | some s => if s != "" then some s else b
  | none => b

/-- The slug pipeline: slugify the first truthy of main title / page title,
then drop one trailing `-digits` suffix from a truthy slug. -/
def slugOfTitles (mainT titleT : Option String) : Option String :=
  match pyOrOpt mainT titleT with
  | some sb =>
    if sb != "" then
      let s := slugify sb
      if s != "" && endsDashDigits s then some (dropTrailingDashDigits s) else some s
    else none
  | none => none

/-- The chapter-number preference: the subtitle-extracted number when
truthy, else the `no` query parameter (`(ep_no_text or '') or no`). -/
def chapterNoOf (epNo : Option String) (no : String) : String :=
  if epNo.getD "" != "" then epNo.getD "" else no

/-- The label composition: `naver_<titleId>_<chapterNo>` when either part
is truthy, else the truthy slug or the literal `episode`; a truthy slug is
then appended as a suffix. -/
def labelOf (title_id chapter_no : String) (slug : Option String) : String :=
  let base :=
    if title_id != "" || chapter_no != "" then
      "naver_" ++ title_id ++ "_" ++ chapter_no
    else
      match slug with
      | some s => if s != "" then s else "episode"
      | none => "episode"
  match slug with
  | some s => if s != "" then base ++ "_" ++ s else base
  | none => base

/-- `parse_chapter_label(url, html)`: the chapter label and metadata. -/
def parse_chapter_label (url : String) (html : Option String) : String × ChapterMeta :=
  let title_id := queryParam url ("titleId")
  let no := queryParam url ("no")
  let ep_main := epMainOf html
  let ep_sub := epSubOf html
  let ep_no_text := epNoTextOf html
  let ep_title := epTitleOf html
  let slug := slugOfTitles ep_main ep_title
  let chapter_no := chapterNoOf ep_no_text no
  (labelOf title_id chapter_no slug,
   ⟨"naver", title_id, no, ep_title, ep_main, ep_sub, ep_no_text, url⟩)

/-! ### `fetch`: the retrying fetcher

The network is an oracle mapping the attempt number (1-based, as in the
Python `for i in range(1, attempts + 1)`) to an outcome.  Delays are
recorded in milliseconds: the Python base delay `0.5` seconds is `500`,
doubled after every failed attempt that leaves retries.  The result pairs
the returned value or raised error with the list of sleeps performed;
`Except.error none` stands for the unreachable
`RuntimeError("fetch failed without exception")` of a zero-attempt call. -/

/-- The retry loop of `fetch`, from attempt `i` with the current delay and
the sleeps already performed. -/
def fetchIter (oracle : Nat → Except E D) (attempts : Nat) :
    Nat → Nat → List Nat → Option E → Except (Option E) D × List Nat
  | i, delay, sleeps, last =>
    if _h : i ≤ attempts then
      match oracle i with
      | Except.ok d => (Except.ok d, sleeps)
      | Except.error e =>
        if i ≥ attempts then (Except.error (some e), sleeps)
        else fetchIter oracle attempts (i + 1) (delay * 2) (sleeps ++ [delay]) (some e)
    else (Except.error last, sleeps)
termination_by i => attempts + 1 - i

/-- `fetch` under a given network oracle: up to `attempts` tries, base
delay 500 ms doubling, the last error re-raised when all attempts fail. -/
def fetch (oracle : Nat → Except E D) (attempts : Nat) :
    Except (Option E) D × List Nat :=
  fetchIter oracle attempts 1 500 [] none

/-! ### `download_images`: the download orchestrator

The filesystem and network are an explicit environment; the function
returns the saved paths, the per-image records and the trace of side
effects in order.  `fetchResult u = none` stands for `fetch` raising after
its retries; `some (data, ctype)` for a successful fetch with the
`Content-Type` header value. -/

/-- One record of the `metas` list of `download_images`. -/
structure ImageRec where
  index : Nat
  filename : String
  url : String
  size : Nat
deriving DecidableEq, Repr

/-- Pre-existing files, their sizes, and per-URL fetch outcomes. -/
structure DlEnv where
  fileExists : String → Bool
  fileSize : String → Nat
  fetchResult : String → Option (List Nat × Option String)

/-- The side effects of `download_images`, in order. -/
inductive FsEvent
  | mkdirDest
  | mkdirMeta
  | writeListing (content : String)
  | fetchImage (url : String)
  | writeImage (name : String) (data : List Nat)
deriving DecidableEq, Repr

/-- An event of the per-image download work (as opposed to the set-up). -/
def isDlEvent : FsEvent → Bool
  | FsEvent.fetchImage _ => true
  | FsEvent.writeImage _ _ => true
  | _ => false

/-- `f"{idx:0{pad}d}"`: zero-pad a number to the given width. -/
def zeroPad (pad n : Nat) : String :=
  let s := toString n
  String.mk (List.replicate (pad - s.length) '0') ++ s

/-- The saved path of a record: `dest_dir / name`. -/
def pathOfRec (dest : String) (m : ImageRec) : String := dest ++ "/" ++ m.filename

/-- The per-URL loop of `download_images` from 1-based index `idx`:
skip-and-record existing files, fetch, validate, write and record. -/
def dlLoop (env : DlEnv) (dest : String) (pad : Nat) (overwrite : Bool) :
    List String → Nat → List String × List ImageRec × List FsEvent
  | [], _ => ([], [], [])
  | u :: rest, idx =>
    let ext := infer_ext u
    let name := zeroPad pad idx ++ ext
    let r := dlLoop env dest pad overwrite rest (idx + 1)
    if env.fileExists name && !overwrite then
      ((dest ++ "/" ++ name) :: r.1,
       ⟨idx, name, u, env.fileSize name⟩ :: r.2.1, r.2.2)
    else
      match env.fetchResult u with
      | none => (r.1, r.2.1, FsEvent.fetchImage u :: r.2.2)
      | some dc =>
        if is_image_bytes dc.1 dc.2 then
          ((dest ++ "/" ++ name) :: r.1,
           ⟨idx, name, u, dc.1.length⟩ :: r.2.1,
           FsEvent.fetchImage u :: FsEvent.writeImage name dc.1 :: r.2.2)
        else (r.1, r.2.1, FsEvent.fetchImage u :: r.2.2)

/-- The sidecar listing content: `"\n".join(urls) + "\n"`. -/
def listingText (urls : List String) : String :=
  String.intercalate "\n" urls ++ "\n"

/-- `download_images(urls, dest_dir, referer, overwrite, meta_dir)`:
directories are ensured, the full ordered URL list is written to the
`.urls.txt` sidecar, then every candidate is processed in order. -/
def download_images (env : DlEnv) (urls : List String) (dest : String)
    (overwrite : Bool) : List String × List ImageRec × List FsEvent :=
  let pad := max 3 (toString urls.length).length
  let r := dlLoop env dest pad overwrite urls 1
  (r.1, r.2.1,
   FsEvent.mkdirDest :: FsEvent.mkdirMeta
     :: FsEvent.writeListing (listingText urls) :: r.2.2)

/-! ## Supporting lemmas -/

theorem str_append_data (a b : String) : (a ++ b).data = a.data ++ b.data := rfl

theorem searchAux_some {α : Type} {f : List Char → Option α} :
    ∀ {fuel : Nat} {l : List Char} {a : α},
      searchAux f fuel l = some a → ∃ l', f l' = some a := by
  intro fuel
  induction fuel with
  | zero => intro l a h; simp [searchAux] at h
  | succ n ih =>
    intro l a h
    cases l with
    | nil => exact ⟨[], by simpa [searchAux] using h⟩
    | cons c t =>
      rw [searchAux] at h
      cases hf : f (c :: t) with
      | some r =>
        rw [hf] at h
        exact ⟨c :: t, by rw [hf]; exact h⟩
      | none =>
        rw [hf] at h
        exact ih h

theorem runsReplaceAux_mem {p : Char → Bool} {r : List Char} :
    ∀ {fuel : Nat} {l : List Char} {c : Char},
      c ∈ runsReplaceAux p r fuel l → c ∈ r ∨ (c ∈ l ∧ p c = false) := by
  intro fuel
  induction fuel with
  | zero => intro l c h; simp [runsReplaceAux] at h
  | succ n ih =>
    intro l c h
    cases l with
    | nil => simp [runsReplaceAux] at h
    | cons a t =>
      rw [runsReplaceAux] at h
      by_cases hp : p a
      · rw [if_pos hp] at h
        rcases List.mem_append.mp h with h1 | h2
        · exact Or.inl h1
        · rcases ih h2 with h3 | ⟨h4, h5⟩
          · exact Or.inl h3
          · exact Or.inr ⟨List.mem_cons_of_mem a ((List.dropWhile_sublist p).mem h4), h5⟩
      · rw [if_neg hp] at h
        rcases List.mem_cons.mp h with rfl | h2
        · exact Or.inr ⟨List.mem_cons_self _ _, by simpa using hp⟩
        · rcases ih h2 with h3 | ⟨h4, h5⟩
          · exact Or.inl h3
          · exact Or.inr ⟨List.mem_cons_of_mem a h4, h5⟩

theorem strip_shape_mem {p : Char → Bool} {l : List Char} {c : Char}
    (h : c ∈ ((l.dropWhile p).reverse.dropWhile p).reverse) : c ∈ l := by
  rw [List.mem_reverse] at h
  have h2 := (List.dropWhile_sublist p).mem h
  rw [List.mem_reverse] at h2
  exact (List.dropWhile_sublist p).mem h2

theorem slugify_chars {s : String} {c : Char} (h : c ∈ (slugify s).data) :
    isSlugChar c = true := by
  unfold slugify at h
  simp only [String.data] at h
  have h1 : c ∈ dashStrip (runsReplace (fun c => c == '-') ['-']
      (runsReplace (fun c => !(isSlugChar c)) []
        (runsReplace (fun c => isPySpace c || c == '_') ['-'] (pyStrip s.data)))) :=
    List.mem_of_mem_take h
  unfold dashStrip at h1
  have h2 := strip_shape_mem h1
  rcases runsReplaceAux_mem h2 with h3 | ⟨h4, _⟩
  · simp at h3; subst h3; rfl
  · rcases runsReplaceAux_mem h4 with h5 | ⟨_, h6⟩
    · simp at h5
    · simpa using h6

theorem dropTrailingDashDigits_chars {s : String} {c : Char}
    (h : c ∈ (dropTrailingDashDigits s).data) : c ∈ s.data := by
  unfold dropTrailingDashDigits at h
  split at h
  · rename_i hds
    revert h
    split
    · rename_i r hr
      intro h
      simp only [String.data] at h
      rw [List.mem_reverse] at h
      have h2 : c ∈ s.data.reverse.drop ((s.data.reverse.takeWhile Char.isDigit).length) := by
        rw [hr]; exact List.mem_cons_of_mem _ h
      have h3 := List.drop_subset _ _ h2
      rwa [List.mem_reverse] at h3
    · intro h; exact h
  · exact h

theorem digits15At_digits {l : List Char} {t : String} (h : digits15At l = some t)
    {c : Char} (hc : c ∈ t.data) : c.isDigit = true := by
  cases l with
  | nil => simp [digits15At] at h
  | cons a r =>
    simp only [digits15At] at h
    by_cases ha : a.isDigit
    · rw [if_pos ha] at h
      cases h
      simp only [String.data] at hc
      rcases List.mem_cons.mp hc with rfl | h2
      · exact ha
      · exact List.mem_takeWhile_imp (List.mem_of_mem_take h2)
    · rw [if_neg ha] at h; cases h

theorem searchDigits15_digits {s : String} {t : String}
    (h : searchDigits15 s = some t) {c : Char} (hc : c ∈ t.data) :
    c.isDigit = true := by
  obtain ⟨l', hl'⟩ := searchAux_some h
  exact digits15At_digits hl' hc

/-! ## Claim C1 — payload validation -/

/-- C1, counterexample: a payload whose bytes start with the text `<html`
is nonetheless accepted when the declared content type is `image/jpeg`,
because the header test returns before the signature check runs. -/
theorem c1_counterexample :
    is_image_bytes (asciiBytes ("<html><body>error</body></html>"))
      (some ("image/jpeg")) = true := by
  decide

/-- C1 (amended): a payload opening with the JPEG magic `FF D8 FF` is
accepted when no content type is declared, and a payload opening with the
text `<html` is rejected whenever the declared content type does not pass
the `image/` header test (the header test short-circuits everything else,
so the rejection cannot apply when the content type claims `image/jpeg`). -/
theorem c1_signature_validation :
    (∀ data : List Nat, [0xff, 0xd8, 0xff].isPrefixOf data = true →
      is_image_bytes data none = true)
    ∧ (∀ (data : List Nat) (ctype : Option String),
        (asciiBytes ("<html")).isPrefixOf data = true → ctypeIsImage ctype = false →
        is_image_bytes data ctype = false) := by
  constructor
  · intro data h
    obtain ⟨t, rfl⟩ := List.isPrefixOf_iff_prefix.mp h
    simp [is_image_bytes, ctypeIsImage, List.isPrefixOf, lstripBytes, isSpaceByte]
  · intro data ctype h hc
    have h2 : (asciiBytes ("<html")) = [60, 104, 116, 109, 108] := by decide
    rw [h2] at h
    obtain ⟨t, rfl⟩ := List.isPrefixOf_iff_prefix.mp h
    simp [is_image_bytes, hc, List.isPrefixOf, lstripBytes, isSpaceByte]

/-- C1, witness: both amended branches at concrete payloads. -/
theorem c1_witness :
    is_image_bytes [0xff, 0xd8, 0xff, 0, 1] none = true
    ∧ is_image_bytes (asciiBytes ("<html>404")) none = false :=
  ⟨c1_signature_validation.1 _ (by decide),
   c1_signature_validation.2 _ none (by decide) (by decide)⟩

/-! ## Claim C5 — no duplicates in the extractor output -/

theorem dedup_step_nodup (l : List String) :
    ∀ acc : List String, acc.Nodup →
      (l.foldl (fun acc u => if acc.contains u then acc else acc ++ [u]) acc).Nodup := by
  induction l with
  | nil => intro acc h; simpa using h
  | cons a t ih =>
    intro acc h
    simp only [List.foldl_cons]
    by_cases hc : acc.contains a
    · rw [if_pos hc]; exact ih acc h
    · rw [if_neg hc]
      refine ih _ (List.nodup_append.mpr ⟨h, List.nodup_singleton a, ?_⟩)
      intro x hx hx2
      simp at hx2
      subst hx2
      exact hc (List.elem_iff.mpr hx)

/-- C5: for every input document and base URL the extractor's output list
holds no duplicate URL strings — the first-seen deduplication (`seen` /
`dict.fromkeys`) makes the pre-sort list duplicate-free and the final sort
only permutes it. -/
theorem c5_extract_nodup (html base : String) : (extract_image_urls html base).Nodup := by
  unfold extract_image_urls
  exact ((List.mergeSort_perm _ _).symm).nodup (dedup_step_nodup _ _ List.nodup_nil)

/-! ## Claim C6 — the URL normalizer -/

/-- C6: the desktop chapter URL is rewritten to the mobile host with path
and query preserved and `rewritten = true`; every URL that fails the
desktop-detail guard (for example an already-mobile URL) is returned
unchanged with `rewritten = false`.  The embedding is a total function, so
no input raises. -/
theorem c6_normalize :
    normalize_naver_url ("https://comic.naver.com/webtoon/detail?titleId=1&no=5")
      = ("https://m.comic.naver.com/webtoon/detail?titleId=1&no=5", true)
    ∧ ∀ u : String, naverMatches u = false → normalize_naver_url u = (u, false) := by
  constructor
  · decide
  · intro u h
    simp only [naverMatches] at h
    simp only [normalize_naver_url]
    split
    · rename_i hcond
      split
      · rename_i hpath
        rw [hcond, hpath] at h
        simp at h
      · rfl
    · rfl

/-! ## Claim C2 — label determinism and path safety -/

theorem epNoTextOf_digits {html : Option String} {t : String}
    (h : epNoTextOf html = some t) {c : Char} (hc : c ∈ t.data) :
    c.isDigit = true := by
  unfold epNoTextOf at h
  cases hsub : epSubOf html with
  | none => rw [hsub] at h; cases h
  | some s =>
    rw [hsub] at h
    simp only at h
    by_cases hs : (s != "") = true
    · rw [if_pos hs] at h
      exact searchDigits15_digits h hc
    · rw [if_neg hs] at h
      cases h

theorem slugOfTitles_chars {a b : Option String} {s : String}
    (h : slugOfTitles a b = some s) {c : Char} (hc : c ∈ s.data) :
    isSlugChar c = true := by
  unfold slugOfTitles at h
  cases hb : pyOrOpt a b with
  | none => rw [hb] at h; cases h
  | some sb =>
    rw [hb] at h
    simp only at h
    by_cases hsb : (sb != "") = true
    · rw [if_pos hsb] at h
      by_cases hcond : (slugify sb != "" && endsDashDigits (slugify sb)) = true
      · rw [if_pos hcond] at h
        cases h
        exact slugify_chars (dropTrailingDashDigits_chars hc)
      · rw [if_neg hcond] at h
        cases h
        exact slugify_chars hc
    · rw [if_neg hsb] at h
      cases h

theorem isSlugChar_ne_slash {c : Char} (h : isSlugChar c = true) : c ≠ '/' := by
  intro hc
  subst hc
  simp [isSlugChar] at h

theorem isDigit_ne_slash {c : Char} (h : c.isDigit = true) : c ≠ '/' := by
  intro hc
  subst hc
  simp at h

theorem no_slash_append {a b : String} (ha : '/' ∉ a.data) (hb : '/' ∉ b.data) :
    '/' ∉ (a ++ b).data := by
  rw [str_append_data]
  intro h
  rcases List.mem_append.mp h with h1 | h2
  · exact ha h1
  · exact hb h2

theorem labelOf_no_slash {tid chno : String} {slug : Option String}
    (h1 : '/' ∉ tid.data) (h2 : '/' ∉ chno.data)
    (h3 : ∀ s, slug = some s → '/' ∉ s.data) :
    '/' ∉ (labelOf tid chno slug).data := by
  have hnaver : '/' ∉ ("naver_" ++ tid ++ "_" ++ chno).data :=
    no_slash_append (no_slash_append (no_slash_append (by decide) h1) (by decide)) h2
  cases slug with
  | none =>
    by_cases htc : (tid != "" || chno != "") = true
    · simp only [labelOf, if_pos htc]
      exact hnaver
    · simp only [labelOf, if_neg htc]
      decide
  | some s =>
    have hs := h3 s rfl
    by_cases hse : (s != "") = true
    · by_cases htc : (tid != "" || chno != "") = true
      · simp only [labelOf, if_pos htc, if_pos hse]
        exact no_slash_append (no_slash_append hnaver (by decide)) hs
      · simp only [labelOf, if_neg htc, if_pos hse]
        exact no_slash_append (no_slash_append hs (by decide)) hs
    · by_cases htc : (tid != "" || chno != "") = true
      · simp only [labelOf, if_pos htc, if_neg hse]
        exact hnaver
      · simp only [labelOf, if_neg htc, if_neg hse]
        decide

/-- C2, counterexample: a chapter URL whose `titleId` query value holds a
path separator produces a label holding a path separator — the query
values flow into the label unsanitised, so the label is not always safe as
a single filesystem path component. -/
theorem c2_counterexample :
    (parse_chapter_label ("https://comic.naver.com/webtoon/detail?titleId=a/b&no=5")
        none).1 = "naver_a/b_5"
    ∧ '/' ∈ ((parse_chapter_label
        ("https://comic.naver.com/webtoon/detail?titleId=a/b&no=5") none).1).data := by
  constructor
  · decide
  · decide

/-- C2 (amended): the resolver is a pure function, so the label is the same
on repeated calls with the same inputs; and whenever the URL's `titleId`
and `no` query values hold no `/`, the label holds no `/` either — the
remaining label material (the fixed `naver`/`episode` literals, the
subtitle-extracted digits and the slug, which `slugify` restricts to
`[A-Za-z0-9-]`) can never contribute a path separator. -/
theorem c2_label_stable_safe (url : String) (html : Option String)
    (h1 : '/' ∉ (queryParam url ("titleId")).data)
    (h2 : '/' ∉ (queryParam url ("no")).data) :
    parse_chapter_label url html = parse_chapter_label url html
    ∧ '/' ∉ ((parse_chapter_label url html).1).data := by
  refine ⟨rfl, ?_⟩
  have hmain : (parse_chapter_label url html).1
      = labelOf (queryParam url ("titleId"))
          (chapterNoOf (epNoTextOf html) (queryParam url ("no")))
          (slugOfTitles (epMainOf html) (epTitleOf html)) := rfl
  rw [hmain]
  refine labelOf_no_slash h1 ?_ ?_
  · unfold chapterNoOf
    split
    · rename_i hcond
      cases hno : epNoTextOf html with
      | none => rw [hno] at hcond; simp at hcond
      | some t =>
        intro hmem
        exact isDigit_ne_slash (epNoTextOf_digits hno (by simpa using hmem)) rfl
    · exact h2
  · intro s hs hmem
    exact isSlugChar_ne_slash (slugOfTitles_chars hs hmem) rfl

/-- C2, witness: the amended theorem at a concrete chapter URL. -/
theorem c2_witness :
    parse_chapter_label ("https://m.comic.naver.com/webtoon/detail?titleId=765804&no=127")
        none
      = parse_chapter_label ("https://m.comic.naver.com/webtoon/detail?titleId=765804&no=127")
        none
    ∧ '/' ∉ ((parse_chapter_label
        ("https://m.comic.naver.com/webtoon/detail?titleId=765804&no=127") none).1).data :=
  c2_label_stable_safe _ none (by decide) (by decide)

/-! ## Claim C3 — lazy-load attribute priority -/

theorem mergeSort_pair {α : Type} (le : α → α → Bool) (a b : α) :
    [a, b].mergeSort le = if le a b then [a, b] else [b, a] := by
  rw [List.mergeSort]
  simp [List.merge]

/-- C3, counterexample: in a tag carrying `data-src` first and `src` second,
the extractor's candidate is the plain `src` URL, not the lazy-load one —
the single greedy regex takes the rightmost src-like attribute of the tag,
so lazy-load attributes have no priority. -/
theorem c3_counterexample :
    extract_image_urls
      ("<img data-src=\"https://image-comic.pstatic.net/webtoon/aaa\" src=\"https://image-comic.pstatic.net/webtoon/bbb\">")
      ("https://m.comic.naver.com/webtoon/detail?titleId=1&no=2")
      = ["https://image-comic.pstatic.net/webtoon/bbb"] := by
  have h : collectAllUrls
      ("<img data-src=\"https://image-comic.pstatic.net/webtoon/aaa\" src=\"https://image-comic.pstatic.net/webtoon/bbb\">")
      ("https://m.comic.naver.com/webtoon/detail?titleId=1&no=2")
      = ["https://image-comic.pstatic.net/webtoon/bbb"] := by decide
  show (dedupFirst (collectAllUrls _ _)).mergeSort (pageLe (collectAllUrls _ _)) = _
  rw [h]
  have h2 : dedupFirst ["https://image-comic.pstatic.net/webtoon/bbb"]
      = ["https://image-comic.pstatic.net/webtoon/bbb"] := by decide
  rw [h2, List.mergeSort_singleton]

theorem imgScanAux_nil (fuel : Nat) : imgScanAux fuel [] = [] := by
  cases fuel <;> rfl

theorem takeWhile_append_all {p : Char → Bool} :
    ∀ {l₁ l₂ : List Char}, (∀ c ∈ l₁, p c = true) →
      (l₁ ++ l₂).takeWhile p = l₁ ++ l₂.takeWhile p := by
  intro l₁
  induction l₁ with
  | nil => intro l₂ _; rfl
  | cons a t ih =>
    intro l₂ h
    rw [List.cons_append, List.takeWhile_cons, if_pos (h a (List.mem_cons_self a t)),
      ih (fun c hc => h c (List.mem_cons_of_mem a hc)), List.cons_append]

theorem dropWhile_cons_false {p : Char → Bool} {a : Char} {l : List Char}
    (h : p a = false) : (a :: l).dropWhile p = a :: l := by
  rw [List.dropWhile_cons, if_neg]
  simp [h]

theorem ciStarts_cons_false {p c : Char} {ps cs : List Char}
    (h : (pyLower p == pyLower c) = false) : ciStarts (p :: ps) (c :: cs) = false := by
  simp [ciStarts, h]

theorem attrTail_none {m : List Char}
    (h : ∀ c ∈ m, isPySpace c = false ∧ (c == '=') = false) :
    attrTail m = none := by
  have hdw : m.dropWhile isPySpace = m := by
    cases m with
    | nil => rfl
    | cons a t => exact dropWhile_cons_false (h a (List.mem_cons_self a t)).1
  unfold attrTail
  rw [hdw]
  cases m with
  | nil => rfl
  | cons a t =>
    have ha : (a == '=') = false := (h a (List.mem_cons_self a t)).2
    split
    · rename_i r2 heq
      cases heq
      simp at ha
    · rfl

theorem attrAlt_none_safe {t : List Char}
    (h : ∀ c ∈ t, isPySpace c = false ∧ (c == '=') = false) :
    attrAlt t = none := by
  have hd : ∀ k, ∀ c ∈ t.drop k, isPySpace c = false ∧ (c == '=') = false :=
    fun k c hc => h c (List.drop_subset k t hc)
  unfold attrAlt
  by_cases h1 : ciStarts (("data-src").data) t = true
  · rw [if_pos h1]; exact attrTail_none (hd 8)
  · rw [if_neg (by simp [h1])]
    by_cases h2 : ciStarts (("data-original").data) t = true
    · rw [if_pos h2]; exact attrTail_none (hd 13)
    · rw [if_neg (by simp [h2])]
      by_cases h3 : ciStarts (("data-image").data) t = true
      · rw [if_pos h3]; exact attrTail_none (hd 10)
      · rw [if_neg (by simp [h3])]
        by_cases h4 : ciStarts (("src").data) t = true
        · rw [if_pos h4]; exact attrTail_none (hd 3)
        · rw [if_neg (by simp [h4])]

theorem attrAlt_head_none {c : Char} {rest : List Char}
    (hd : (pyLower 'd' == pyLower c) = false) (hs : (pyLower 's' == pyLower c) = false) :
    attrAlt (c :: rest) = none := by
  have h1 : ciStarts (("data-src").data) (c :: rest) = false := ciStarts_cons_false hd
  have h2 : ciStarts (("data-original").data) (c :: rest) = false := ciStarts_cons_false hd
  have h3 : ciStarts (("data-image").data) (c :: rest) = false := ciStarts_cons_false hd
  have h4 : ciStarts (("src").data) (c :: rest) = false := ciStarts_cons_false hs
  simp [attrAlt, h1, h2, h3, h4]

theorem attrAlt_src_pos {v : List Char} (hv : v ≠ [])
    (hq : ∀ c ∈ v, isQuote c = false) :
    attrAlt ('s' :: 'r' :: 'c' :: '=' :: '"' :: (v ++ ['"', '>'])) = some (v, []) := by
  have h1 : ciStarts (("data-src").data)
      ('s' :: 'r' :: 'c' :: '=' :: '"' :: (v ++ ['"', '>'])) = false :=
    ciStarts_cons_false (by decide)
  have h2 : ciStarts (("data-original").data)
      ('s' :: 'r' :: 'c' :: '=' :: '"' :: (v ++ ['"', '>'])) = false :=
    ciStarts_cons_false (by decide)
  have h3 : ciStarts (("data-image").data)
      ('s' :: 'r' :: 'c' :: '=' :: '"' :: (v ++ ['"', '>'])) = false :=
    ciStarts_cons_false (by decide)
  have h4 : ciStarts (("src").data)
      ('s' :: 'r' :: 'c' :: '=' :: '"' :: (v ++ ['"', '>'])) = true := by
    simp [ciStarts]
  unfold attrAlt
  rw [if_neg (by simp [h1]), if_neg (by simp [h2]), if_neg (by simp [h3]), if_pos h4]
  show attrTail ('=' :: '"' :: (v ++ ['"', '>'])) = some (v, [])
  unfold attrTail
  rw [dropWhile_cons_false (by decide)]
  have hcap : ('"' :: (v ++ ['"', '>'])).dropWhile isPySpace = '"' :: (v ++ ['"', '>']) :=
    dropWhile_cons_false (by decide)
  have htw : (v ++ ['"', '>']).takeWhile (fun c => !(isQuote c)) = v := by
    rw [takeWhile_append_all (fun c hc => by simp [hq c hc])]
    simp [List.takeWhile_cons, isQuote, dquote]
  split
  · rename_i r2 heq
    obtain rfl : r2 = '"' :: (v ++ ['"', '>']) := by
      injection heq with he1 he2
      exact he2.symm
    rw [hcap]
    dsimp only
    rw [if_pos (by decide : isQuote '"' = true), htw]
    obtain ⟨a, t, rfl⟩ : ∃ a t, v = a :: t := by
      cases v with
      | nil => exact absurd rfl hv
      | cons a t => exact ⟨a, t, rfl⟩
    rw [show ((a :: t).isEmpty) = false from rfl]
    simp only [Bool.false_eq_true, if_false]
    rw [List.drop_left]
    rfl
  · rename_i hne
    exact absurd rfl (hne ('"' :: (v ++ ['"', '>'])))

theorem tryFrom_spec {α : Type} (step : Nat → Option α) (j0 : Nat) (v : α) :
    ∀ n, 1 ≤ j0 → j0 ≤ n → step j0 = some v →
      (∀ j, j0 < j → j ≤ n → step j = none) → tryFrom step n = some v := by
  intro n
  induction n with
  | zero => intro h1 h2 _ _; omega
  | succ m ih =>
    intro h1 h2 hj hnone
    rw [tryFrom]
    by_cases he : j0 = m + 1
    · subst he
      rw [hj]
    · rw [hnone (m + 1) (by omega) (le_refl _)]
      exact ih h1 (by omega) hj (fun j ha hb => hnone j ha (by omega))

theorem attrAlt_srcgap_none {v : List Char}
    (hvc : ∀ c ∈ v, isPySpace c = false ∧ (c == '=') = false) :
    ∀ m, 1 ≤ m →
      attrAlt (('s' :: 'r' :: 'c' :: '=' :: '"' :: (v ++ ['"', '>'])).drop m) = none := by
  have hsafe : ∀ k, attrAlt ((v ++ ['"', '>']).drop k) = none := by
    intro k
    apply attrAlt_none_safe
    intro c hc
    have hmem := List.drop_subset k _ hc
    rcases List.mem_append.mp hmem with hm1 | hm2
    · exact hvc c hm1
    · rcases List.mem_cons.mp hm2 with rfl | hm3
      · exact ⟨by decide, by decide⟩
      · rcases List.mem_cons.mp hm3 with rfl | hm4
        · exact ⟨by decide, by decide⟩
        · cases hm4
  intro m hm
  rcases m with _ | (_ | (_ | (_ | (_ | k))))
  · omega
  · exact attrAlt_head_none (by decide) (by decide)
  · exact attrAlt_head_none (by decide) (by decide)
  · exact attrAlt_head_none (by decide) (by decide)
  · exact attrAlt_head_none (by decide) (by decide)
  · exact hsafe k

theorem plainValChar_parts {c : Char} (h : plainValChar c = true) :
    isQuote c = false ∧ isPySpace c = false ∧ (c == '>') = false ∧ (c == '=') = false := by
  simp only [plainValChar, Bool.and_eq_true, Bool.not_eq_true'] at h
  exact ⟨h.1.1.1, h.1.1.2, h.1.2, h.2⟩

theorem imgScanAux_two_attr (P v : List Char) (fuel : Nat)
    (hP1 : 1 ≤ P.length) (hPgt : ∀ c ∈ P, (c == '>') = false)
    (hv : v ≠ [])
    (hvc : ∀ c ∈ v, plainValChar c = true) :
    imgScanAux (fuel + 1)
        ('<' :: 'i' :: 'm' :: 'g'
          :: (P ++ ('s' :: 'r' :: 'c' :: '=' :: '"' :: (v ++ ['"', '>']))))
      = [String.mk v] := by
  have hvparts := fun c hc => plainValChar_parts (hvc c hc)
  have hmatch : imgMatchAt
      ('<' :: 'i' :: 'm' :: 'g'
        :: (P ++ ('s' :: 'r' :: 'c' :: '=' :: '"' :: (v ++ ['"', '>']))))
      = some (v, []) := by
    unfold imgMatchAt
    rw [if_pos (by simp [ciStarts] :
      ciStarts (("<img").data)
        ('<' :: 'i' :: 'm' :: 'g'
          :: (P ++ ('s' :: 'r' :: 'c' :: '=' :: '"' :: (v ++ ['"', '>'])))) = true)]
    dsimp only
    rw [show ('<' :: 'i' :: 'm' :: 'g'
        :: (P ++ ('s' :: 'r' :: 'c' :: '=' :: '"' :: (v ++ ['"', '>'])))).drop 4
      = P ++ ('s' :: 'r' :: 'c' :: '=' :: '"' :: (v ++ ['"', '>'])) from rfl]
    have hrun : (P ++ ('s' :: 'r' :: 'c' :: '=' :: '"' :: (v ++ ['"', '>']))).takeWhile
        (fun c => !(c == '>'))
        = P ++ ('s' :: 'r' :: 'c' :: '=' :: '"' :: (v ++ ['"'])) := by
      rw [takeWhile_append_all (fun c hc => by simp [hPgt c hc])]
      rw [show (('s' :: 'r' :: 'c' :: '=' :: '"' :: (v ++ ['"', '>'])) : List Char)
        = ['s', 'r', 'c', '=', '"'] ++ (v ++ ['"', '>']) from rfl]
      rw [takeWhile_append_all (by decide)]
      rw [takeWhile_append_all (fun c hc => by simp [(hvparts c hc).2.2.1])]
      rfl
    rw [hrun]
    have hn : (P ++ ('s' :: 'r' :: 'c' :: '=' :: '"' :: (v ++ ['"']))).length
        = P.length + 6 + v.length := by
      simp [List.length_append]
      omega
    rw [hn]
    apply tryFrom_spec _ P.length _ _ hP1 (by omega)
    · rw [List.drop_left]
      exact attrAlt_src_pos hv (fun c hc => (hvparts c hc).1)
    · intro j hj1 hj2
      have hdj : (P ++ ('s' :: 'r' :: 'c' :: '=' :: '"' :: (v ++ ['"', '>']))).drop j
          = ('s' :: 'r' :: 'c' :: '=' :: '"' :: (v ++ ['"', '>'])).drop (j - P.length) := by
        have h1 : j = P.length + (j - P.length) := by omega
        rw [h1, ← List.drop_drop, List.drop_left]
        congr 1
        omega
      rw [hdj]
      exact attrAlt_srcgap_none (fun c hc => ⟨(hvparts c hc).2.1, (hvparts c hc).2.2.2⟩)
        (j - P.length) (by omega)
  rw [imgScanAux, hmatch]
  dsimp only
  rw [imgScanAux_nil]

/-- C3 (amended): the captured candidate of an img tag holding both a
lazy-load attribute and a plain `src` is the attribute written last in the
tag, not the lazy-load one: for every pair of attribute values that are
nonempty and free of quotes, whitespace, `>` and `=`, the document
`<img data-src="a" src="b">` yields candidate `b` and
`<img src="b" data-src="a">` yields `a` (the usual lazy-load markup shape);
end to end, the extractor returns the `data-src` URL of such a tag only
because it is written last.  (With an empty or malformed later value the
greedy pattern backtracks further left, hence the well-formedness
conditions.) -/
theorem c3_rightmost_attribute (a b : List Char)
    (ha1 : a ≠ []) (hb1 : b ≠ [])
    (ha2 : ∀ c ∈ a, plainValChar c = true)
    (hb2 : ∀ c ∈ b, plainValChar c = true) :
    imgScan (String.mk (("<img data-src=\"").data ++ a ++ ("\" src=\"").data
        ++ b ++ ("\">").data))
      = [String.mk b]
    ∧ imgScan (String.mk (("<img src=\"").data ++ b ++ ("\" data-src=\"").data
        ++ a ++ ("\">").data))
      = [String.mk a]
    ∧ extract_image_urls
      ("<img src=\"https://image-comic.pstatic.net/webtoon/ccc\" data-src=\"https://image-comic.pstatic.net/webtoon/ddd\">")
      ("https://m.comic.naver.com/webtoon/detail?titleId=1&no=2")
      = ["https://image-comic.pstatic.net/webtoon/ddd"] := by
  refine ⟨?_, ?_, ?_⟩
  · have hshape : ("<img data-src=\"").data ++ a ++ ("\" src=\"").data ++ b ++ ("\">").data
        = '<' :: 'i' :: 'm' :: 'g'
          :: (((" data-src=\"").data ++ a ++ ['"', ' '])
              ++ ('s' :: 'r' :: 'c' :: '=' :: '"' :: (b ++ ['"', '>']))) := by
      rw [show ("<img data-src=\"").data
          = ['<', 'i', 'm', 'g', ' ', 'd', 'a', 't', 'a', '-', 's', 'r', 'c', '=', '"'] from rfl,
        show ("\" src=\"").data = ['"', ' ', 's', 'r', 'c', '=', '"'] from rfl,
        show ("\">").data = ['"', '>'] from rfl,
        show (" data-src=\"").data
          = [' ', 'd', 'a', 't', 'a', '-', 's', 'r', 'c', '=', '"'] from rfl]
      simp [List.append_assoc]
    show imgScanAux
        ((("<img data-src=\"").data ++ a ++ ("\" src=\"").data ++ b ++ ("\">").data).length + 1)
        (("<img data-src=\"").data ++ a ++ ("\" src=\"").data ++ b ++ ("\">").data)
      = [String.mk b]
    rw [hshape]
    apply imgScanAux_two_attr
    · simp
    · intro c hc
      rcases List.mem_append.mp hc with hc1 | hc2
      · rcases List.mem_append.mp hc1 with hc3 | hc4
        · fin_cases hc3 <;> rfl
        · exact (plainValChar_parts (ha2 c hc4)).2.2.1
      · fin_cases hc2 <;> rfl
    · exact hb1
    · exact hb2
  · have hshape : ("<img src=\"").data ++ b ++ ("\" data-src=\"").data ++ a ++ ("\">").data
        = '<' :: 'i' :: 'm' :: 'g'
          :: (((" src=\"").data ++ b ++ ['"', ' ', 'd', 'a', 't', 'a', '-'])
              ++ ('s' :: 'r' :: 'c' :: '=' :: '"' :: (a ++ ['"', '>']))) := by
      rw [show ("<img src=\"").data
          = ['<', 'i', 'm', 'g', ' ', 's', 'r', 'c', '=', '"'] from rfl,
        show ("\" data-src=\"").data
          = ['"', ' ', 'd', 'a', 't', 'a', '-', 's', 'r', 'c', '=', '"'] from rfl,
        show ("\">").data = ['"', '>'] from rfl,
        show (" src=\"").data = [' ', 's', 'r', 'c', '=', '"'] from rfl]
      simp [List.append_assoc]
    show imgScanAux
        ((("<img src=\"").data ++ b ++ ("\" data-src=\"").data ++ a ++ ("\">").data).length + 1)
        (("<img src=\"").data ++ b ++ ("\" data-src=\"").data ++ a ++ ("\">").data)
      = [String.mk a]
    rw [hshape]
    apply imgScanAux_two_attr
    · simp
    · intro c hc
      rcases List.mem_append.mp hc with hc1 | hc2
      · rcases List.mem_append.mp hc1 with hc3 | hc4
        · fin_cases hc3 <;> rfl
        · exact (plainValChar_parts (hb2 c hc4)).2.2.1
      · fin_cases hc2 <;> rfl
    · exact ha1
    · exact ha2
  · have h : collectAllUrls
        ("<img src=\"https://image-comic.pstatic.net/webtoon/ccc\" data-src=\"https://image-comic.pstatic.net/webtoon/ddd\">")
        ("https://m.comic.naver.com/webtoon/detail?titleId=1&no=2")
        = ["https://image-comic.pstatic.net/webtoon/ddd"] := by decide
    show (dedupFirst (collectAllUrls _ _)).mergeSort (pageLe (collectAllUrls _ _)) = _
    rw [h]
    have h2 : dedupFirst ["https://image-comic.pstatic.net/webtoon/ddd"]
        = ["https://image-comic.pstatic.net/webtoon/ddd"] := by decide
    rw [h2, List.mergeSort_singleton]

/-- C3, witness: the amended rule at concrete attribute values. -/
theorem c3_witness :
    imgScan (String.mk (("<img data-src=\"").data ++ ("lazyA").data ++ ("\" src=\"").data
        ++ ("plainB").data ++ ("\">").data))
      = ["plainB"]
    ∧ imgScan (String.mk (("<img src=\"").data ++ ("plainB").data ++ ("\" data-src=\"").data
        ++ ("lazyA").data ++ ("\">").data))
      = ["lazyA"]
    ∧ extract_image_urls
      ("<img src=\"https://image-comic.pstatic.net/webtoon/ccc\" data-src=\"https://image-comic.pstatic.net/webtoon/ddd\">")
      ("https://m.comic.naver.com/webtoon/detail?titleId=1&no=2")
      = ["https://image-comic.pstatic.net/webtoon/ddd"] :=
  c3_rightmost_attribute (("lazyA").data) (("plainB").data)
    (by decide) (by decide) (by decide) (by decide)

/-! ## Claim C4 — sort-key ordering -/

theorem pageLe_iff (U : List String) (a b : String) :
    pageLe U a b = true ↔
      (sort_key a < sort_key b
        ∨ (sort_key a = sort_key b ∧ U.indexOf a ≤ U.indexOf b)) := by
  simp [pageLe, Bool.or_eq_true, Bool.and_eq_true, Nat.blt_eq, Nat.ble_eq,
    Nat.beq_eq_true_eq]

theorem pageLe_trans (U : List String) :
    ∀ a b c, pageLe U a b = true → pageLe U b c = true → pageLe U a c = true := by
  intro a b c hab hbc
  rw [pageLe_iff] at hab hbc ⊢
  omega

theorem pageLe_total (U : List String) :
    ∀ a b, (pageLe U a b || pageLe U b a) = true := by
  intro a b
  rw [Bool.or_eq_true, pageLe_iff, pageLe_iff]
  omega

theorem extract_pairwise (html base : String) :
    (extract_image_urls html base).Pairwise
      (fun a b => pageLe (collectAllUrls html base) a b = true) := by
  unfold extract_image_urls
  exact List.sorted_mergeSort (pageLe_trans _) (pageLe_total _) _

/-- C4, counterexample: the first tag's URL carries the embedded page
number 2 000 000, the second tag's URL carries no numeric hint; the no-hint
URL receives the sentinel key 1 000 000 and is sorted BEFORE the keyed URL,
not after it. -/
theorem c4_counterexample :
    extract_image_urls
      ("<img src=\"https://image-comic.pstatic.net/webtoon/ep_p2000000.jpg\"><img src=\"https://image-comic.pstatic.net/webtoon/cover.jpg\">")
      ("https://m.comic.naver.com/webtoon/detail?titleId=1&no=2")
      = ["https://image-comic.pstatic.net/webtoon/cover.jpg",
         "https://image-comic.pstatic.net/webtoon/ep_p2000000.jpg"]
    ∧ sortKeyFind ("https://image-comic.pstatic.net/webtoon/cover.jpg") = none
    ∧ sort_key ("https://image-comic.pstatic.net/webtoon/ep_p2000000.jpg") = 2000000 := by
  refine ⟨?_, by decide, by decide⟩
  have h : collectAllUrls
      ("<img src=\"https://image-comic.pstatic.net/webtoon/ep_p2000000.jpg\"><img src=\"https://image-comic.pstatic.net/webtoon/cover.jpg\">")
      ("https://m.comic.naver.com/webtoon/detail?titleId=1&no=2")
      = ["https://image-comic.pstatic.net/webtoon/ep_p2000000.jpg",
         "https://image-comic.pstatic.net/webtoon/cover.jpg"] := by decide
  show (dedupFirst (collectAllUrls _ _)).mergeSort (pageLe (collectAllUrls _ _)) = _
  rw [h]
  have h2 : dedupFirst
      ["https://image-comic.pstatic.net/webtoon/ep_p2000000.jpg",
       "https://image-comic.pstatic.net/webtoon/cover.jpg"]
      = ["https://image-comic.pstatic.net/webtoon/ep_p2000000.jpg",
         "https://image-comic.pstatic.net/webtoon/cover.jpg"] := by decide
  rw [h2, mergeSort_pair]
  have h3 : pageLe
      ["https://image-comic.pstatic.net/webtoon/ep_p2000000.jpg",
       "https://image-comic.pstatic.net/webtoon/cover.jpg"]
      ("https://image-comic.pstatic.net/webtoon/ep_p2000000.jpg")
      ("https://image-comic.pstatic.net/webtoon/cover.jpg") = false := by decide
  rw [h3]
  simp

/-- C4 (amended): in the extractor's output a URL with embedded page number
3 is ordered before one with 12 regardless of document order; URLs with no
recognizable numeric hint receive the sentinel key 1 000 000 and are kept
(the output is a permutation of the deduplicated candidate list) and every
URL whose key is below the sentinel is ordered before every no-hint URL —
but a URL whose embedded number is at or above the sentinel sorts after the
no-hint URLs, so "no-hint sorts last" holds only below the sentinel. -/
theorem c4_sort_order (html base : String) :
    ((extract_image_urls html base).Perm (dedupFirst (collectAllUrls html base)))
    ∧ (∀ i j (hi : i < (extract_image_urls html base).length)
          (hj : j < (extract_image_urls html base).length),
        sort_key ((extract_image_urls html base)[i]) = 3 →
        sort_key ((extract_image_urls html base)[j]) = 12 → i < j)
    ∧ (∀ i j (hi : i < (extract_image_urls html base).length)
          (hj : j < (extract_image_urls html base).length),
        sort_key ((extract_image_urls html base)[i]) < 1000000 →
        sortKeyFind ((extract_image_urls html base)[j]) = none → i < j)
    ∧ (∀ u : String, sortKeyFind u = none → sort_key u = 1000000) := by
  refine ⟨List.mergeSort_perm _ _, ?_, ?_, ?_⟩
  · intro i j hi hj h3 h12
    rcases Nat.lt_trichotomy i j with h | h | h
    · exact h
    · exfalso
      subst h
      exact absurd (h3.symm.trans h12) (by decide)
    · exfalso
      have hp := List.pairwise_iff_getElem.mp (extract_pairwise html base) j i hj hi h
      rw [pageLe_iff] at hp
      rw [h3, h12] at hp
      omega
  · intro i j hi hj hlt hnone
    have hj1000 : sort_key ((extract_image_urls html base)[j]) = 1000000 := by
      simp [sort_key, hnone]
    rcases Nat.lt_trichotomy i j with h | h | h
    · exact h
    · exfalso
      subst h
      rw [hj1000] at hlt
      omega
    · exfalso
      have hp := List.pairwise_iff_getElem.mp (extract_pairwise html base) j i hj hi h
      rw [pageLe_iff] at hp
      rw [hj1000] at hp
      omega
  · intro u h
    simp [sort_key, h]

/-! ## Claim C7 — retry with exponential backoff -/

theorem fetchIter_all_fail {E D : Type} {oracle : Nat → Except E D} {attempts : Nat}
    {errOf : Nat → E}
    (h2 : ∀ i, 1 ≤ i → i ≤ attempts → oracle i = Except.error (errOf i)) :
    ∀ (k i delay : Nat) (sleeps : List Nat) (last : Option E),
      i + k = attempts → 1 ≤ i →
      fetchIter oracle attempts i delay sleeps last
        = (Except.error (some (errOf attempts)),
           sleeps ++ (List.range k).map (fun j => delay * 2 ^ j)) := by
  intro k
  induction k with
  | zero =>
    intro i delay sleeps last hik hi
    have hia : i ≤ attempts := by omega
    rw [fetchIter, dif_pos hia]
    simp only [h2 i hi hia]
    rw [if_pos (by omega : i ≥ attempts)]
    have hieq : i = attempts := by omega
    subst hieq
    simp
  | succ n ih =>
    intro i delay sleeps last hik hi
    have hia : i ≤ attempts := by omega
    rw [fetchIter, dif_pos hia]
    simp only [h2 i hi hia]
    rw [if_neg (by omega : ¬ i ≥ attempts)]
    rw [ih (i + 1) (delay * 2) (sleeps ++ [delay]) (some (errOf i)) (by omega) (by omega)]
    rw [List.append_assoc]
    congr 1
    rw [List.range_succ_eq_map, List.map_cons, List.map_map]
    simp only [pow_zero, Nat.mul_one, List.singleton_append]
    congr 1
    congr 1
    apply List.map_congr_left
    intro a _
    simp only [Function.comp, pow_succ]
    ring

/-- C7: when every attempt fails, `fetch` performs exactly `attempts` tries,
sleeping 500 ms before the second try and doubling the delay after each
further failure, and finally re-raises the last attempt's error — it never
substitutes an empty result. -/
theorem c7_fetch_retries {E D : Type} (oracle : Nat → Except E D) (attempts : Nat)
    (errOf : Nat → E) (h1 : 1 ≤ attempts)
    (h2 : ∀ i, 1 ≤ i → i ≤ attempts → oracle i = Except.error (errOf i)) :
    fetch oracle attempts
      = (Except.error (some (errOf attempts)),
         (List.range (attempts - 1)).map (fun k => 500 * 2 ^ k)) := by
  unfold fetch
  rw [fetchIter_all_fail h2 (attempts - 1) 1 500 [] none (by omega) (by omega)]
  simp

/-- C7, witness: three failing attempts sleep 500 ms then 1000 ms and
re-raise the third error. -/
theorem c7_witness :
    fetch (fun i => (Except.error i : Except Nat Nat)) 3
      = (Except.error (some 3), [500, 1000]) := by
  have h := c7_fetch_retries (fun i => (Except.error i : Except Nat Nat)) 3
    (fun i => i) (by omega) (fun i hi1 hi2 => rfl)
  simpa [List.range_succ] using h

/-! ## Claim C8 — chapter number preference and label composition -/

/-- C8: the label equals the composition of the reported metadata fields:
the chapter number is the subtitle-extracted number when truthy, else the
URL's `no` query value; the label is `naver_<titleId>_<chapterNo>` when
either part is truthy, else the truthy slug or the literal `episode`; and a
truthy slug is always appended as a suffix. -/
theorem c8_label_rule (url : String) (html : Option String) :
    (parse_chapter_label url html).2.no = queryParam url ("no")
    ∧ (parse_chapter_label url html).2.titleId = queryParam url ("titleId")
    ∧ (parse_chapter_label url html).1
        = (let m := (parse_chapter_label url html).2
           let chNo := if (m.episode_no_extracted.getD "" != "") = true
                       then m.episode_no_extracted.getD "" else m.no
           let slug := slugOfTitles m.episode_title_main m.episode_title
           let base := if (m.titleId != "" || chNo != "") = true
                       then "naver_" ++ m.titleId ++ "_" ++ chNo
                       else match slug with
                            | some s => if (s != "") = true then s else "episode"
                            | none => "episode"
           match slug with
           | some s => if (s != "") = true then base ++ "_" ++ s else base
           | none => base) :=
  ⟨rfl, rfl, rfl⟩

/-! ## Claim C9 — the sidecar listing is written before any download -/

/-- C9: for every environment, candidate list and overwrite setting, the
event trace of the orchestrator contains the `.urls.txt` write — carrying
the full ordered candidate list, newline-separated — preceded only by
events that are not per-image downloads (the two directory creations). -/
theorem c9_listing_first (env : DlEnv) (urls : List String) (dest : String)
    (overwrite : Bool) :
    ∃ pre rest,
      (download_images env urls dest overwrite).2.2
        = pre ++ FsEvent.writeListing (listingText urls) :: rest
      ∧ ∀ e ∈ pre, isDlEvent e = false := by
  refine ⟨[FsEvent.mkdirDest, FsEvent.mkdirMeta],
    (dlLoop env dest (max 3 (toString urls.length).length) overwrite urls 1).2.2,
    rfl, ?_⟩
  intro e he
  rcases List.mem_cons.mp he with rfl | he2
  · rfl
  · rcases List.mem_cons.mp he2 with rfl | he3
    · rfl
    · cases he3

/-! ## Claim C10 — saved paths and records correspond -/

theorem dlLoop_saved_eq (env : DlEnv) (dest : String) (pad : Nat) (overwrite : Bool) :
    ∀ (urls : List String) (idx : Nat),
      (dlLoop env dest pad overwrite urls idx).1
        = ((dlLoop env dest pad overwrite urls idx).2.1).map (pathOfRec dest) := by
  intro urls
  induction urls with
  | nil => intro idx; rfl
  | cons u rest ih =>
    intro idx
    simp only [dlLoop]
    split
    · simp only [List.map_cons]
      exact congrArg _ (ih (idx + 1))
    · cases hf : env.fetchResult u with
      | none => exact ih (idx + 1)
      | some dc =>
        dsimp only
        by_cases hv : is_image_bytes dc.1 dc.2 = true
        · rw [if_pos hv]
          simp only [List.map_cons]
          exact congrArg _ (ih (idx + 1))
        · rw [if_neg hv]
          exact ih (idx + 1)

theorem dlLoop_meta_bounds (env : DlEnv) (dest : String) (pad : Nat) (overwrite : Bool) :
    ∀ (urls : List String) (idx : Nat) (m : ImageRec),
      m ∈ (dlLoop env dest pad overwrite urls idx).2.1 →
      (idx ≤ m.index ∧ m.index < idx + urls.length)
      ∧ ((env.fileExists m.filename = true ∧ overwrite = false)
          ∨ ∃ dc, env.fetchResult m.url = some dc ∧ is_image_bytes dc.1 dc.2 = true
              ∧ m.size = dc.1.length) := by
  intro urls
  induction urls with
  | nil => intro idx m h; simp [dlLoop] at h
  | cons u rest ih =>
    intro idx m h
    simp only [dlLoop] at h
    by_cases hex : (env.fileExists (zeroPad pad idx ++ infer_ext u) && !overwrite) = true
    · rw [if_pos hex] at h
      rcases List.mem_cons.mp h with rfl | h2
      · exact ⟨⟨le_refl _, by simp⟩, Or.inl (by simpa using hex)⟩
      · obtain ⟨⟨hb1, hb2⟩, hprov⟩ := ih (idx + 1) m h2
        exact ⟨⟨by omega, by simp only [List.length_cons]; omega⟩, hprov⟩
    · rw [if_neg hex] at h
      cases hf : env.fetchResult u with
      | none =>
        simp only [hf] at h
        obtain ⟨⟨hb1, hb2⟩, hprov⟩ := ih (idx + 1) m h
        exact ⟨⟨by omega, by simp only [List.length_cons]; omega⟩, hprov⟩
      | some dc =>
        simp only [hf] at h
        by_cases hv : is_image_bytes dc.1 dc.2 = true
        · rw [if_pos hv] at h
          dsimp only at h
          rcases List.mem_cons.mp h with rfl | h2
          · exact ⟨⟨le_refl _, by simp⟩, Or.inr ⟨dc, hf, hv, rfl⟩⟩
          · obtain ⟨⟨hb1, hb2⟩, hprov⟩ := ih (idx + 1) m h2
            exact ⟨⟨by omega, by simp only [List.length_cons]; omega⟩, hprov⟩
        · rw [if_neg hv] at h
          obtain ⟨⟨hb1, hb2⟩, hprov⟩ := ih (idx + 1) m h
          exact ⟨⟨by omega, by simp only [List.length_cons]; omega⟩, hprov⟩

theorem dlLoop_chain (env : DlEnv) (dest : String) (pad : Nat) (overwrite : Bool) :
    ∀ (urls : List String) (idx : Nat),
      List.Chain' (fun a b : ImageRec => a.index < b.index)
        (dlLoop env dest pad overwrite urls idx).2.1 := by
  intro urls
  induction urls with
  | nil => intro idx; simp [dlLoop]
  | cons u rest ih =>
    intro idx
    simp only [dlLoop]
    split
    · refine List.Chain'.cons' (ih (idx + 1)) ?_
      intro b hb
      have hmem := List.mem_of_mem_head? hb
      have hge := (dlLoop_meta_bounds env dest pad overwrite rest (idx + 1) b hmem).1.1
      simp only
      omega
    · cases hf : env.fetchResult u with
      | none => exact ih (idx + 1)
      | some dc =>
        dsimp only
        by_cases hv : is_image_bytes dc.1 dc.2 = true
        · rw [if_pos hv]
          refine List.Chain'.cons' (ih (idx + 1)) ?_
          intro b hb
          have hmem := List.mem_of_mem_head? hb
          have hge := (dlLoop_meta_bounds env dest pad overwrite rest (idx + 1) b hmem).1.1
          simp only
          omega
        · rw [if_neg hv]
          exact ih (idx + 1)

/-- C10: the saved-paths list is exactly the record list mapped to
`dest/filename` (so the two lists have equal length and correspond
pairwise); record indices are strictly increasing 1-based positions in the
candidate list; and a record exists only for an already-existing target
with overwriting disabled (the skip path) or for a fetched payload that
passed `is_image_bytes` and was written (`size` is then the payload size). -/
theorem c10_records (env : DlEnv) (urls : List String) (dest : String)
    (overwrite : Bool) :
    (download_images env urls dest overwrite).1
      = ((download_images env urls dest overwrite).2.1).map (pathOfRec dest)
    ∧ List.Chain' (fun a b : ImageRec => a.index < b.index)
        ((download_images env urls dest overwrite).2.1)
    ∧ ∀ m ∈ (download_images env urls dest overwrite).2.1,
        (1 ≤ m.index ∧ m.index ≤ urls.length)
        ∧ ((env.fileExists m.filename = true ∧ overwrite = false)
            ∨ ∃ dc, env.fetchResult m.url = some dc ∧ is_image_bytes dc.1 dc.2 = true
                ∧ m.size = dc.1.length) := by
  refine ⟨dlLoop_saved_eq env dest _ overwrite urls 1,
    dlLoop_chain env dest _ overwrite urls 1, ?_⟩
  intro m hm
  obtain ⟨⟨hb1, hb2⟩, hprov⟩ :=
    dlLoop_meta_bounds env dest (max 3 (toString urls.length).length) overwrite urls 1 m hm
  exact ⟨⟨hb1, by omega⟩, hprov⟩

end Grab
